import Mathlib

/-!
Verification of the ECS mapping frontend's core logic: the JSON field-path
extractor, the batch request builder, the mapping submission response
handling, and the mappings reconciliation table (load / save / filter /
CSV export).

JSON values are embedded as the inductive `JValue`.  JavaScript numbers are
carried together with their decimal rendering (the only observation the
program makes of a number in the verified code paths is `String(v)`), so a
number is represented by that rendering.  JavaScript `Set<string>` objects
are embedded as duplicate-free lists in insertion order, and `undefined`
is `Option.none`.
-/

/-- A parsed JSON value, as produced by `JSON.parse`. -/
inductive JValue where
  | vNull
  | vBool (b : Bool)
  | vNum (render : String)
  | vStr (s : String)
  | vArr (elems : List JValue)
  | vObj (fields : List (String × JValue))

/-- JavaScript test `typeof v === "object" && v !== null`: true exactly on
objects and arrays. -/
def JValue.isContainer : JValue → Bool
  | .vArr _ => true
  | .vObj _ => true
  | _ => false

mutual
/-- Size measure for `JValue`, used for termination of the walkers. -/
def JValue.jsize : JValue → Nat
  | .vNull => 1
  | .vBool _ => 1
  | .vNum _ => 1
  | .vStr _ => 1
  | .vArr xs => 1 + JValue.jsizeList xs
  | .vObj fs => 1 + JValue.jsizeFields fs

/-- Size of a list of values, each child weighted by one extra unit. -/
def JValue.jsizeList : List JValue → Nat
  | [] => 0
  | x :: xs => (JValue.jsize x + 1) + JValue.jsizeList xs

/-- Size of an entry list, each child weighted by one extra unit. -/
def JValue.jsizeFields : List (String × JValue) → Nat
  | [] => 0
  | (_, v) :: fs => (JValue.jsize v + 1) + JValue.jsizeFields fs
end

/-- Index/value pairs of an array's elements starting at index `i`,
with the indices rendered in decimal: `Object.keys` of a JS array. -/
def enumIdx (i : Nat) : List JValue → List (String × JValue)
  | [] => []
  | x :: xs => (toString i, x) :: enumIdx (i + 1) xs

/-- `Object.keys(v)` paired with the member values: field entries for an
object, decimal-index entries for an array, nothing for a scalar. -/
def JValue.childEntries : JValue → List (String × JValue)
  | .vObj fs => fs
  | .vArr xs => enumIdx 0 xs
  | _ => []

/-- `Set.add`: append the element when it is not yet present. -/
def setAdd (out : List String) (p : String) : List String :=
  if p ∈ out then out else out ++ [p]

/-- `prefix ? prefix + "." + key : key` (the empty prefix is falsy). -/
def prefixJoin (pre key : String) : String :=
  if pre = "" then key else pre ++ "." ++ key

mutual
/-- `extractFieldPaths` from the Map-from-JSON page: walk a JSON value,
adding the dot-notated path of every key encountered at recursion depth
at most `maxDepth`, recursing into container values. -/
def extractFieldPaths (obj : JValue) (pre : String) (depth maxDepth : Nat)
    (out : List String) : List String :=
  if obj.isContainer = true ∧ depth ≤ maxDepth then
    extractLoop obj.childEntries pre depth maxDepth out
  else out
termination_by (obj.jsize, 0)
decreasing_by
  apply Prod.Lex.left
  have hkey : ∀ (ys : List JValue) (i : Nat),
      JValue.jsizeFields (enumIdx i ys) = JValue.jsizeList ys := by
    intro ys
    induction ys with
    | nil => intro i; rfl
    | cons y ys ih =>
      intro i
      simp only [enumIdx, JValue.jsizeFields, JValue.jsizeList, ih]
  cases obj <;>
    simp [JValue.childEntries, JValue.jsize, hkey, JValue.jsizeFields]

/-- The `for (const key of Object.keys(rec))` loop body of
`extractFieldPaths`. -/
def extractLoop (l : List (String × JValue)) (pre : String)
    (depth maxDepth : Nat) (out : List String) : List String :=
  match l with
  | [] => out
  | (key, val) :: rest =>
    let path := prefixJoin pre key
    let out2 :=
      if val.isContainer = true then
        extractFieldPaths val path (depth + 1) maxDepth (setAdd out path)
      else setAdd out path
    extractLoop rest pre depth maxDepth out2
termination_by (JValue.jsizeFields l, 1)
decreasing_by
  · apply Prod.Lex.left
    simp only [JValue.jsizeFields]
    omega
  · apply Prod.Lex.left
    simp only [JValue.jsizeFields]
    omega
end

mutual
/-- The key paths of a JSON value: every sequence of keys that addresses a
member (container members as well as leaves), with array elements keyed by
their decimal indices.  This is the reference enumeration the extractor is
proved against. -/
def pathsOf (v : JValue) : List (List String) :=
  pathsOfEntries v.childEntries
termination_by (v.jsize, 0)
decreasing_by
  apply Prod.Lex.left
  have hkey : ∀ (ys : List JValue) (i : Nat),
      JValue.jsizeFields (enumIdx i ys) = JValue.jsizeList ys := by
    intro ys
    induction ys with
    | nil => intro i; rfl
    | cons y ys ih =>
      intro i
      simp only [enumIdx, JValue.jsizeFields, JValue.jsizeList, ih]
  cases v <;>
    simp [JValue.childEntries, JValue.jsize, hkey, JValue.jsizeFields]

/-- Key paths contributed by an entry list: for entry `(k, v)`, the path
`[k]` itself plus `k` prepended to every key path of `v`. -/
def pathsOfEntries : List (String × JValue) → List (List String)
  | [] => []
  | (k, v) :: rest =>
    ([k] :: (pathsOf v).map (fun ks => k :: ks)) ++ pathsOfEntries rest
termination_by l => (JValue.jsizeFields l, 1)
decreasing_by
  · apply Prod.Lex.left
    simp only [JValue.jsizeFields]
    omega
  · apply Prod.Lex.left
    simp only [JValue.jsizeFields]
    omega
end

/-- Dot-join a key sequence onto a prefix, exactly as the extractor threads
its `prefix` argument. -/
def joinAll (pre : String) (ks : List String) : String :=
  ks.foldl prefixJoin pre

/-- One element of the `/map-batch` request body. -/
structure BatchInputItem where
  sourcetype : String
  field : String
  description : String
deriving Repr, DecidableEq

/-- The two prototype objects reachable from `JSON.parse` output via the
inherited `__proto__` accessor: `Object.prototype` and `Array.prototype`. -/
inductive ProtoRef where
  | objectProto
  | arrayProto
deriving Repr, DecidableEq

/-- What a JS member lookup (`key in acc` followed by `acc[key]`) can
yield on `JSON.parse` output: an own data property holding a JSON value, an
inherited native function carried with its `String(-)` rendering, or one of
the prototype objects themselves (via the `__proto__` accessor). -/
inductive JsMember where
  | val (v : JValue)
  | native (render : String)
  | proto (r : ProtoRef)

/-- The string-keyed function-valued members of `Object.prototype` per
ECMA-262 (main body plus Annex B accessors; `constructor` and the
`__proto__` accessor are handled separately since they do not render as
`function name() ...`). -/
def objectProtoFnNames : List String :=
  [("hasOwnProperty"), ("isPrototypeOf"), ("propertyIsEnumerable"),
   ("toLocaleString"), ("toString"), ("valueOf"), ("__defineGetter__"),
   ("__defineSetter__"), ("__lookupGetter__"), ("__lookupSetter__")]

/-- The string-keyed function-valued members of `Array.prototype` per
ECMA-262 (2023); `length` and `constructor` are handled separately. -/
def arrayProtoFnNames : List String :=
  [("at"), ("concat"), ("copyWithin"), ("entries"), ("every"), ("fill"),
   ("filter"), ("find"), ("findIndex"), ("findLast"), ("findLastIndex"),
   ("flat"), ("flatMap"), ("forEach"), ("includes"), ("indexOf"), ("join"),
   ("keys"), ("lastIndexOf"), ("map"), ("pop"), ("push"), ("reduce"),
   ("reduceRight"), ("reverse"), ("shift"), ("slice"), ("some"), ("sort"),
   ("splice"), ("toLocaleString"), ("toReversed"), ("toSorted"),
   ("toSpliced"), ("toString"), ("unshift"), ("values"), ("with")]

/-- `String(f)` for a native function member, as V8 renders it. -/
def nativeFnRender (name : String) : String :=
  ("function ") ++ name ++ ("() \x7b [native code] \x7d")

/-- The inherited member a plain-object instance exposes under `key` when
no own field shadows it: an `Object.prototype` function member, the
`constructor` (the `Object` function), or the `__proto__` accessor, whose
getter yields `Object.prototype`. -/
def objectInstanceProto (key : String) : Option JsMember :=
  if key ∈ objectProtoFnNames then some (.native (nativeFnRender key))
  else if key = ("constructor") then
    some (.native (("function Object() \x7b [native code] \x7d")))
  else if key = ("__proto__") then some (.proto .objectProto)
  else none

/-- The inherited member an array instance exposes under `key` when no own
index (or `length`) shadows it: `Array.prototype` members first, then the
non-shadowed `Object.prototype` members; the `__proto__` getter yields
`Array.prototype`. -/
def arrayInstanceProto (key : String) : Option JsMember :=
  if key ∈ arrayProtoFnNames then some (.native (nativeFnRender key))
  else if key = ("constructor") then
    some (.native (("function Array() \x7b [native code] \x7d")))
  else if key = ("__proto__") then some (.proto .arrayProto)
  else if key ∈ objectProtoFnNames then some (.native (nativeFnRender key))
  else none

/-- Members of the prototype objects themselves, for paths that step
through the `__proto__` accessor: `Object.prototype`'s own `__proto__` is
`null`, `Array.prototype` has own `length` `0` and inherits the rest from
`Object.prototype`. -/
def protoRefMember (r : ProtoRef) (key : String) : Option JsMember :=
  match r with
  | .objectProto =>
    if key ∈ objectProtoFnNames then some (.native (nativeFnRender key))
    else if key = ("constructor") then
      some (.native (("function Object() \x7b [native code] \x7d")))
    else if key = ("__proto__") then some (.val .vNull)
    else none
  | .arrayProto =>
    if key = ("length") then some (.val (.vNum ("0")))
    else if key ∈ arrayProtoFnNames then some (.native (nativeFnRender key))
    else if key = ("constructor") then
      some (.native (("function Array() \x7b [native code] \x7d")))
    else if key ∈ objectProtoFnNames then some (.native (nativeFnRender key))
    else if key = ("__proto__") then some (.proto .objectProto)
    else none

/-- One step of `getByPath`'s reduce:
`typeof acc === "object" && acc !== null && key in acc ? acc[key] : undefined`.
The `in` operator consults own properties first (object fields — note that
`JSON.parse` creates even a `"__proto__"` key as an ordinary own field —
array decimal indices and `length`) and then the prototype chain as
tabulated above; scalars, `null` and native functions fail the `typeof`
guard, yielding `undefined` (`none`). -/
def jsMemberIndex (m : JsMember) (key : String) : Option JsMember :=
  match m with
  | .val (.vObj fs) =>
    match List.lookup key fs with
    | some w => some (.val w)
    | none => objectInstanceProto key
  | .val (.vArr xs) =>
    match List.lookup key (enumIdx 0 xs) with
    | some w => some (.val w)
    | none =>
      if key = ("length") then some (.val (.vNum (toString xs.length)))
      else arrayInstanceProto key
  | .val _ => none
  | .native _ => none
  | .proto r => protoRefMember r key

/-- Character-level worker for `jsSplitDot`: `cur` holds the current
segment reversed. -/
def jsSplitDotAux : List Char → List Char → List String
  | [], cur => [String.mk cur.reverse]
  | c :: cs, cur =>
    if c = ('.') then String.mk cur.reverse :: jsSplitDotAux cs []
    else jsSplitDotAux cs (c :: cur)

/-- JavaScript `path.split(".")` for the one-character separator: splits at
every dot, keeping empty segments (`""` splits to `[""]`). -/
def jsSplitDot (s : String) : List String :=
  jsSplitDotAux s.data []

/-- `getByPath` from the Map-from-JSON page: follow a dot-separated path
through nested members, collapsing to `undefined` as soon as a step fails. -/
def getByPath (obj : JValue) (path : String) : Option JsMember :=
  (jsSplitDot path).foldl
    (fun acc key => acc.bind (fun m => jsMemberIndex m key)) (some (.val obj))

/-- JavaScript `String(v)` for primitive values.  The builder only applies
it under a guard excluding containers, so the container renderings are
never consulted there (array rendering, comma-joined in JS, is elided). -/
def jsString : JValue → String
  | .vNull => "null"
  | .vBool true => "true"
  | .vBool false => "false"
  | .vNum r => r
  | .vStr s => s
  | .vArr _ => ""
  | .vObj _ => "[object Object]"

/-- The `arr` computation in `buildBatchPayload`: an array keeps exactly its
entries satisfying `typeof x === "object" && x !== null`, a non-null
non-array object becomes a one-document batch, anything else yields no
documents. -/
def docsOf : JValue → List JValue
  | .vArr xs => xs.filter (fun x => x.isContainer)
  | .vObj fs => [.vObj fs]
  | _ => []

/-- The field-collection loop of `buildBatchPayload`: a single `Set`,
threaded through `extractFieldPaths` for every document, depth bound 2. -/
def collectFields (docs : List JValue) : List String :=
  docs.foldl (fun fields ev => extractFieldPaths ev ("") 0 2 fields) []

/-- The `description` computed for one field
(`v !== undefined && v !== null && typeof v !== "object"`): a rendering of
the member the lookup finds in the first document when that member is a
non-null non-object value — an own scalar, or an inherited native function
(whose `typeof` is `"function"`) — else the generic fallback naming the
field. -/
def mkDescription (first : JValue) (f : String) : String :=
  match getByPath first f with
  | none => ("field ") ++ f
  | some (.val .vNull) => ("field ") ++ f
  | some (.val (.vArr _)) => ("field ") ++ f
  | some (.val (.vObj _)) => ("field ") ++ f
  | some (.val v) => ("sample value: ") ++ jsString v
  | some (.native r) => ("sample value: ") ++ r
  | some (.proto _) => ("field ") ++ f

/-- JavaScript `s.trim()`: strip leading and trailing whitespace,
character by character. -/
def jsTrim (s : String) : String :=
  String.mk
    (((s.data.dropWhile Char.isWhitespace).reverse.dropWhile
        Char.isWhitespace).reverse)

/-- Outcome of the external `JSON.parse` call on the pasted text. -/
inductive ParseOutcome where
  | fail
  | ok (v : JValue)

/-- Observable outcome of one `buildBatchPayload` run: the returned value
(`none` is the JS `null` return) and the message passed to `setError`,
when that setter was invoked. -/
structure BuildResult where
  payload : Option (List BatchInputItem)
  errorMsg : Option String
deriving Repr, DecidableEq

/-- `buildBatchPayload` from the Map-from-JSON page.  `JSON.parse` is a JS
builtin, so its outcome on `text` is supplied alongside the raw text. -/
def buildBatchPayload (text : String) (parsed : ParseOutcome)
    (sourcetype : String) (silent : Bool) : BuildResult :=
  if jsTrim text = ("") then { payload := none, errorMsg := none }
  else
    match parsed with
    | .fail =>
      { payload := none
        errorMsg :=
          if silent then none
          else some ("Invalid JSON. Please paste a valid JSON object or array.") }
    | .ok v =>
      let arr := docsOf v
      if arr.isEmpty then
        { payload := none
          errorMsg :=
            if silent then none
            else some ("JSON must be an object or an array of objects.") }
      else
        let first := arr.headD (.vObj [])
        { payload := some ((collectFields arr).map
            (fun f => { sourcetype := sourcetype, field := f
                        description := mkDescription first f }))
          errorMsg := none }

/-- A row of the Mappings list (`MappingRow` extended with the client-only
optional `human_verified` overlay).  Numeric fields carry their decimal
renderings where only the rendering is observed. -/
structure MappingRow where
  id : Int
  sourcetype : String
  source_field : String
  mapped_field_name : String
  mapping_type : String
  rationale : Option String
  confidence : Option String
  created_at : String
  human_verified : Option Bool
deriving Repr, DecidableEq

/-- The state hooks of `MappingsListPage`. -/
structure ListState where
  items : List MappingRow
  q : String
  page : Int
  pageSize : Int
  total : Int
  loading : Bool
  notImplemented : Bool
  savingId : Option Int
  editId : Option Int
  editHuman : Bool
  editMapped : String
deriving Repr, DecidableEq

/-- Body of the `PATCH /mappings/:id` request issued by `saveEdit`. -/
structure PatchBody where
  human_verified : Bool
  mapped_field_name : String
deriving Repr, DecidableEq

/-- Everything observable about one `saveEdit` run: the resulting state,
the network request issued (if any), and the blocking alert raised
(if any). -/
structure SaveEffects where
  state : ListState
  request : Option PatchBody
  alertMsg : Option String
deriving Repr, DecidableEq

/-- `saveEdit` from `MappingsListPage`.  `success` tells whether the
awaited `PATCH` call resolved or threw; it is only consulted after the
request is issued. -/
def saveEdit (st : ListState) (id : Int) (success : Bool) : SaveEffects :=
  let nextName := jsTrim st.editMapped
  if nextName = ("") then
    { state := st, request := none
      alertMsg := some ("Mapped Field cannot be empty.") }
  else
    let st1 := { st with savingId := some id }
    let req : PatchBody :=
      { human_verified := st.editHuman, mapped_field_name := nextName }
    if success then
      let st2 := { st1 with
        items := st1.items.map (fun (it : MappingRow) =>
          if it.id = id then
            { it with human_verified := some st.editHuman
                      mapped_field_name := nextName }
          else it)
        editId := none }
      { state := { st2 with savingId := none }, request := some req
        alertMsg := none }
    else
      { state := { st1 with savingId := none }, request := some req
        alertMsg := some ("Failed to update. See console for details.") }

/-- Response body of a successful `GET /mappings`, with the fields the code
guards with `||` fallbacks kept optional. -/
structure LoadData where
  items : Option (List MappingRow)
  total : Option Int

/-- Outcome of the awaited `GET /mappings` call. -/
inductive LoadOutcome where
  | ok (data : LoadData)
  | httpErr (status : Option Nat)

/-- `load` from `MappingsListPage` as a state transition over the request
outcome: set the loading flag, clear the advisory flag, then either store
the fetched page or, on a 404, raise the "not implemented" advisory. -/
def load (st : ListState) (res : LoadOutcome) : ListState :=
  let st1 := { st with loading := true, notImplemented := false }
  match res with
  | .ok data =>
    { st1 with items := data.items.getD [], total := data.total.getD 0
               loading := false }
  | .httpErr status =>
    if status = some 404 then { st1 with notImplemented := true, loading := false }
    else { st1 with loading := false }

/-- JavaScript `s.includes(sub)`: substring containment. -/
def jsIncludes (s sub : String) : Bool :=
  decide (List.IsInfix sub.data s.data)

/-- One row's test in the client-side filter. -/
def rowMatches (t : String) (r : MappingRow) : Bool :=
  jsIncludes r.sourcetype.toLower t || jsIncludes r.source_field.toLower t ||
    jsIncludes r.mapped_field_name.toLower t

/-- The `filtered` memo: the loaded page, further filtered client-side by
the lower-cased query against three columns. -/
def filteredRows (items : List MappingRow) (q : String) : List MappingRow :=
  if q = ("") then items else items.filter (rowMatches q.toLower)

/-- `replaceAll` for a single-character pattern, character by character. -/
def replaceChar (c : Char) (rep : List Char) : List Char → List Char
  | [] => []
  | x :: xs => (if x = c then rep else [x]) ++ replaceChar c rep xs

/-- JavaScript `s.replaceAll(c, rep)` for a one-character pattern `c`. -/
def jsReplaceAll (s : String) (c : Char) (rep : String) : String :=
  String.mk (replaceChar c rep.data s.data)

/-- The fixed CSV header of `exportCSV`. -/
def csvHeader : List String :=
  [("id"), ("sourcetype"), ("source_field"), ("mapped_field_name"),
   ("mapped_field_name_underscore"), ("mapping_type"), ("confidence"),
   ("created_at"), ("human_verified")]

/-- The cell values of one exported row, in the fixed column order,
including the derived underscore-joined variant of the mapped name. -/
def rowCells (r : MappingRow) : List String :=
  [toString r.id, r.sourcetype, r.source_field, r.mapped_field_name,
   jsReplaceAll r.mapped_field_name ('.') ("_"),
   r.mapping_type, r.confidence.getD (""), r.created_at,
   if r.human_verified.getD false then ("true") else ("false")]

/-- CSV quoting: wrap in double quotes, doubling embedded double quotes. -/
def quoteCell (v : String) : String :=
  ("\"") ++ jsReplaceAll v ('"') ("\"\"") ++ ("\"")

/-- One physical CSV line: quoted cells joined by commas. -/
def csvLineOf (cols : List String) : String :=
  String.intercalate (",") (cols.map quoteCell)

/-- The lines of the exported CSV: the header line, then one line per row
passed in (the caller passes the currently filtered, currently loaded
rows). -/
def csvLines (rows : List MappingRow) : List String :=
  (csvHeader :: rows.map rowCells).map csvLineOf

/-- `exportCSV` from `MappingsListPage`: the full generated CSV text. -/
def exportCSV (rows : List MappingRow) : String :=
  String.intercalate ("\n") (csvLines rows)

/-- The query part of one `/map-batch` result item. -/
structure BatchQuery where
  sourcetype : String
  field : String
  queryLimit : Int
  model : String
deriving Repr, DecidableEq

/-- The classifier's decision for one field. -/
structure LlmDecision where
  mapping_type : String
  mapped_field_name : String
  ecs_version : String
  rationale : String
  confidence : String
deriving Repr, DecidableEq

/-- One `/map-batch` response item (`hints` has no schema owned by this
system and is carried as a raw JSON value). -/
structure MapBatchResultItem where
  query : BatchQuery
  hints : JValue
  llm_decision : LlmDecision
  db_status : String

/-- The `results` member of the `/map-batch` response body, as the code can
meet it: absent, present but not an array, or an array of items. -/
inductive RespResults where
  | missing
  | notAnArray (v : JValue)
  | array (rs : List MapBatchResultItem)

/-- `Array.isArray(data?.results) ? data.results : []`. -/
def normalizeResults : RespResults → List MapBatchResultItem
  | .array rs => rs
  | _ => []

/-- The state hooks of the Map-from-JSON page touched by `handleMap`. -/
structure MapPageState where
  error : Option String
  results : List MapBatchResultItem
  loading : Bool

/-- `handleMap`'s state effects for a submission whose `POST /map-batch`
resolves: clear the error and the previous results, raise the loading
flag, store the normalized response results, drop the loading flag. -/
def handleMapComplete (st : MapPageState) (resp : RespResults) : MapPageState :=
  let st1 := { st with error := none, results := [] }
  let st2 := { st1 with loading := true }
  let st3 := { st2 with results := normalizeResults resp }
  { st3 with loading := false }

/-- A sample persisted row used by the concrete save witnesses. -/
def sampleRow : MappingRow :=
  { id := 1, sourcetype := ("pan_traffic"), source_field := ("src_ip")
    mapped_field_name := ("source.ip"), mapping_type := ("ecs")
    rationale := none, confidence := some ("0.95")
    created_at := ("2024-01-01T00:00:00Z"), human_verified := some false }

/-- A second sample row with a different id. -/
def sampleRow2 : MappingRow :=
  { id := 2, sourcetype := ("pan_threat"), source_field := ("dst_ip")
    mapped_field_name := ("destination.ip"), mapping_type := ("ecs")
    rationale := some ("match"), confidence := none
    created_at := ("2024-01-02T00:00:00Z"), human_verified := none }

/-- A sample list-page state editing row 1, parameterized by the text in
the mapped-name input. -/
def sampleState (em : String) : ListState :=
  { items := [sampleRow, sampleRow2], q := (""), page := 1, pageSize := 20
    total := 2, loading := false, notImplemented := false, savingId := none
    editId := some 1, editHuman := true, editMapped := em }

/-- Recognizer for plain (non-array) JSON objects. -/
def JValue.isObjB : JValue → Bool
  | .vObj _ => true
  | _ => false

/-- The two-document batch refuting the original description dichotomy:
the second document contributes the field path `toString`, which the first
document lacks as an own member but resolves through its prototype chain. -/
def cexDocs : List JValue :=
  [.vObj [(("a"), .vNum ("1"))], .vObj [(("toString"), .vNum ("5"))]]

/-- A concrete two-document batch used by the builder witness. -/
def sampleDocs : List JValue :=
  [.vObj [(("a"), .vNum ("1"))], .vObj [(("b"), .vStr ("x"))]]

theorem jsizeFields_enumIdx (xs : List JValue) :
    ∀ i, JValue.jsizeFields (enumIdx i xs) = JValue.jsizeList xs := by
  induction xs with
  | nil => intro i; rfl
  | cons x xs ih =>
    intro i
    simp only [enumIdx, JValue.jsizeFields, JValue.jsizeList, ih]

theorem jsizeFields_childEntries_lt (v : JValue) :
    JValue.jsizeFields v.childEntries < v.jsize := by
  cases v <;>
    simp [JValue.childEntries, JValue.jsize, jsizeFields_enumIdx, JValue.jsizeFields]

theorem joinAll_nil (pre : String) : joinAll pre [] = pre := rfl

theorem joinAll_cons (pre k : String) (ks : List String) :
    joinAll pre (k :: ks) = joinAll (prefixJoin pre k) ks := rfl

theorem mem_setAdd (out : List String) (q p : String) :
    p ∈ setAdd out q ↔ p ∈ out ∨ p = q := by
  by_cases h : q ∈ out
  · simp only [setAdd, if_pos h]
    constructor
    · exact Or.inl
    · rintro (hp | rfl)
      · exact hp
      · exact h
  · simp [setAdd, if_neg h]

theorem jsize_pos (v : JValue) : 1 ≤ v.jsize := by
  cases v <;> simp only [JValue.jsize] <;> omega

theorem pathsOfEntries_nil : pathsOfEntries [] = [] := by
  rw [pathsOfEntries]

theorem pathsOf_scalar (v : JValue) (h : v.isContainer = false) :
    pathsOf v = [] := by
  cases v with
  | vArr xs => simp [JValue.isContainer] at h
  | vObj fs => simp [JValue.isContainer] at h
  | vNull => rw [pathsOf]; simp [JValue.childEntries, pathsOfEntries_nil]
  | vBool b => rw [pathsOf]; simp [JValue.childEntries, pathsOfEntries_nil]
  | vNum s => rw [pathsOf]; simp [JValue.childEntries, pathsOfEntries_nil]
  | vStr s => rw [pathsOf]; simp [JValue.childEntries, pathsOfEntries_nil]

theorem mem_pathsOfEntries_cons (k : String) (v : JValue)
    (rest : List (String × JValue)) (ks : List String) :
    ks ∈ pathsOfEntries ((k, v) :: rest) ↔
      ks = [k] ∨ (∃ ks', ks' ∈ pathsOf v ∧ ks = k :: ks') ∨
        ks ∈ pathsOfEntries rest := by
  rw [pathsOfEntries]
  simp only [List.mem_append, List.mem_cons, List.mem_map]
  constructor
  · rintro ((rfl | ⟨ks', hks', rfl⟩) | h)
    · exact Or.inl rfl
    · exact Or.inr (Or.inl ⟨ks', hks', rfl⟩)
    · exact Or.inr (Or.inr h)
  · rintro (rfl | ⟨ks', hks', rfl⟩ | h)
    · exact Or.inl (Or.inl rfl)
    · exact Or.inl (Or.inr ⟨ks', hks', rfl⟩)
    · exact Or.inr h

theorem ne_nil_of_mem_pathsOfEntries (l : List (String × JValue))
    (ks : List String) (h : ks ∈ pathsOfEntries l) : ks ≠ [] := by
  induction l with
  | nil => rw [pathsOfEntries] at h; cases h
  | cons e rest ih =>
    obtain ⟨k, v⟩ := e
    rw [mem_pathsOfEntries_cons] at h
    rcases h with rfl | ⟨ks', _, rfl⟩ | h
    · simp
    · simp
    · exact ih h

theorem ne_nil_of_mem_pathsOf (v : JValue) (ks : List String)
    (h : ks ∈ pathsOf v) : ks ≠ [] := by
  rw [pathsOf] at h
  exact ne_nil_of_mem_pathsOfEntries _ _ h

theorem extract_mem_aux (N : Nat) :
    (∀ (obj : JValue) (pre : String) (depth maxDepth : Nat)
      (out : List String) (p : String), obj.jsize ≤ N →
      (p ∈ extractFieldPaths obj pre depth maxDepth out ↔
        p ∈ out ∨ (depth ≤ maxDepth ∧ ∃ ks, ks ∈ pathsOf obj ∧
          ks.length ≤ maxDepth - depth + 1 ∧ p = joinAll pre ks))) ∧
    (∀ (l : List (String × JValue)) (pre : String) (depth maxDepth : Nat)
      (out : List String) (p : String), JValue.jsizeFields l ≤ N →
      (p ∈ extractLoop l pre depth maxDepth out ↔
        p ∈ out ∨ ∃ ks, ks ∈ pathsOfEntries l ∧
          ks.length ≤ maxDepth - depth + 1 ∧ p = joinAll pre ks)) := by
  induction N with
  | zero =>
    constructor
    · intro obj _ _ _ _ _ hsize
      have := jsize_pos obj
      omega
    · intro l pre depth maxDepth out p hsize
      match l with
      | [] => rw [extractLoop]; simp [pathsOfEntries_nil]
      | (k, v) :: rest =>
        exfalso
        have := jsize_pos v
        simp only [JValue.jsizeFields] at hsize
        omega
  | succ N ih =>
    constructor
    · intro obj pre depth maxDepth out p hsize
      rw [extractFieldPaths]
      by_cases hc : obj.isContainer = true ∧ depth ≤ maxDepth
      · rw [if_pos hc]
        have hlt := jsizeFields_childEntries_lt obj
        rw [ih.2 obj.childEntries pre depth maxDepth out p (by omega)]
        rw [← pathsOf]
        simp [hc.2]
      · rw [if_neg hc]
        rcases Bool.eq_false_or_eq_true obj.isContainer with hcont | hcont
        · have hd : ¬ depth ≤ maxDepth := fun hd => hc ⟨hcont, hd⟩
          simp [hd]
        · simp [pathsOf_scalar obj hcont]
    · intro l pre depth maxDepth out p hsize
      match l with
      | [] => rw [extractLoop]; simp [pathsOfEntries_nil]
      | (key, val) :: rest =>
        simp only [JValue.jsizeFields] at hsize
        have hvpos := jsize_pos val
        rw [extractLoop]
        rw [ih.2 rest pre depth maxDepth _ p (by omega)]
        by_cases hvc : val.isContainer = true
        · rw [if_pos hvc]
          rw [ih.1 val (prefixJoin pre key) (depth + 1) maxDepth _ p (by omega)]
          rw [mem_setAdd]
          constructor
          · rintro (((hp | rfl) | ⟨hd1, ks', hks', hlen, rfl⟩) | ⟨ks, hmem, hlen, rfl⟩)
            · exact Or.inl hp
            · refine Or.inr ⟨[key], ?_, by simp, by rw [joinAll_cons, joinAll_nil]⟩
              rw [mem_pathsOfEntries_cons]
              exact Or.inl rfl
            · refine Or.inr ⟨key :: ks', ?_, ?_, rfl⟩
              · rw [mem_pathsOfEntries_cons]
                exact Or.inr (Or.inl ⟨ks', hks', rfl⟩)
              · simp only [List.length_cons]
                omega
            · refine Or.inr ⟨ks, ?_, hlen, rfl⟩
              rw [mem_pathsOfEntries_cons]
              exact Or.inr (Or.inr hmem)
          · rintro (hp | ⟨ks, hmem, hlen, rfl⟩)
            · exact Or.inl (Or.inl (Or.inl hp))
            · rw [mem_pathsOfEntries_cons] at hmem
              rcases hmem with rfl | ⟨ks', hks', rfl⟩ | hmem
              · exact Or.inl (Or.inl (Or.inr (by rw [joinAll_cons, joinAll_nil])))
              · have hne := ne_nil_of_mem_pathsOf val ks' hks'
                have hpos : 1 ≤ ks'.length := List.length_pos.mpr hne
                simp only [List.length_cons] at hlen
                exact Or.inl (Or.inr ⟨by omega, ks', hks', by omega, rfl⟩)
              · exact Or.inr ⟨ks, hmem, hlen, rfl⟩
        · rw [if_neg hvc]
          rw [mem_setAdd]
          have hvf : val.isContainer = false := by
            rcases Bool.eq_false_or_eq_true val.isContainer with h | h
            · exact absurd h hvc
            · exact h
          constructor
          · rintro ((hp | rfl) | ⟨ks, hmem, hlen, rfl⟩)
            · exact Or.inl hp
            · refine Or.inr ⟨[key], ?_, by simp, by rw [joinAll_cons, joinAll_nil]⟩
              rw [mem_pathsOfEntries_cons]
              exact Or.inl rfl
            · refine Or.inr ⟨ks, ?_, hlen, rfl⟩
              rw [mem_pathsOfEntries_cons]
              exact Or.inr (Or.inr hmem)
          · rintro (hp | ⟨ks, hmem, hlen, rfl⟩)
            · exact Or.inl (Or.inl hp)
            · rw [mem_pathsOfEntries_cons] at hmem
              rcases hmem with rfl | ⟨ks', hks', rfl⟩ | hmem
              · exact Or.inl (Or.inr (by rw [joinAll_cons, joinAll_nil]))
              · rw [pathsOf_scalar val hvf] at hks'
                cases hks'
              · exact Or.inr ⟨ks, hmem, hlen, rfl⟩

/-- Membership characterization of `extractFieldPaths`: a string is in the
output exactly when it was already in the accumulator or it dot-renders a
key path of the input whose component count fits the depth bound (a key at
recursion depth `d` yields a path of `d + 1` components, and keys are
visited only while `d ≤ maxDepth`). -/
theorem mem_extractFieldPaths (obj : JValue) (pre : String)
    (depth maxDepth : Nat) (out : List String) (p : String) :
    p ∈ extractFieldPaths obj pre depth maxDepth out ↔
      p ∈ out ∨ (depth ≤ maxDepth ∧ ∃ ks, ks ∈ pathsOf obj ∧
        ks.length ≤ maxDepth - depth + 1 ∧ p = joinAll pre ks) :=
  (extract_mem_aux obj.jsize).1 obj pre depth maxDepth out p le_rfl

/-- C1: for every JSON value and configured maximum depth, the extractor's
output contains exactly the dot-joined renderings of the key paths of the
input — leaf paths and container paths alike — whose component count is at
most `maxDepth + 1`; a path of `n` components addresses nesting depth
`n - 1`, so paths at exactly the configured maximum depth are included and
none deeper. -/
theorem extractFieldPaths_complete_and_depth_bounded
    (obj : JValue) (maxDepth : Nat) (p : String) :
    p ∈ extractFieldPaths obj ("") 0 maxDepth [] ↔
      ∃ ks, ks ∈ pathsOf obj ∧ ks.length ≤ maxDepth + 1 ∧ p = joinAll ("") ks := by
  rw [mem_extractFieldPaths]
  simp

/-- C5: on malformed JSON (a parse failure on non-blank text),
`buildBatchPayload` returns no payload in both modes and sets the
parse-error message in non-silent mode only. -/
theorem buildBatchPayload_malformed_json (text sourcetype : String)
    (h : jsTrim text ≠ ("")) :
    (∀ silent, (buildBatchPayload text .fail sourcetype silent).payload = none) ∧
    (buildBatchPayload text .fail sourcetype false).errorMsg =
      some ("Invalid JSON. Please paste a valid JSON object or array.") ∧
    (buildBatchPayload text .fail sourcetype true).errorMsg = none := by
  refine ⟨fun silent => ?_, ?_, ?_⟩ <;> simp [buildBatchPayload, h]

theorem buildBatchPayload_malformed_json_witness :
    (∀ silent,
      (buildBatchPayload ("\x7bnot json") .fail ("pan_traffic") silent).payload
        = none) ∧
    (buildBatchPayload ("\x7bnot json") .fail ("pan_traffic") false).errorMsg =
      some ("Invalid JSON. Please paste a valid JSON object or array.") ∧
    (buildBatchPayload ("\x7bnot json") .fail ("pan_traffic") true).errorMsg
      = none :=
  buildBatchPayload_malformed_json ("\x7bnot json") ("pan_traffic") (by decide)

/-- C7: a 404 from the `/mappings` load sets the "not implemented"
advisory flag and leaves the cached items untouched, while a successful
load — even of an empty page — leaves the advisory flag off. -/
theorem load_404_advisory (st : ListState) :
    (load st (.httpErr (some 404))).notImplemented = true ∧
    (load st (.httpErr (some 404))).items = st.items ∧
    (∀ data, (load st (.ok data)).notImplemented = false) := by
  refine ⟨?_, ?_, fun data => ?_⟩ <;> simp [load]

/-- C8: after a completed `/map-batch` submission the displayed results
equal exactly the normalized response results — a missing or non-array
`results` member is the empty list, never an error — independently of any
previously displayed results. -/
theorem handleMap_results_replace (st st' : MapPageState) (resp : RespResults) :
    (handleMapComplete st resp).results = normalizeResults resp ∧
    (handleMapComplete st resp).results = (handleMapComplete st' resp).results ∧
    normalizeResults .missing = [] ∧
    (∀ v, normalizeResults (.notAnArray v) = []) ∧
    (∀ rs, normalizeResults (.array rs) = rs) :=
  ⟨rfl, rfl, rfl, fun _ => rfl, fun _ => rfl⟩

/-- C6: when the edited mapped name trims to the empty string, `saveEdit`
blocks: it changes nothing, issues no network request, and raises the
validation alert. -/
theorem saveEdit_empty_name_blocks (st : ListState) (id : Int) (success : Bool)
    (h : jsTrim st.editMapped = ("")) :
    saveEdit st id success =
      { state := st, request := none
        alertMsg := some ("Mapped Field cannot be empty.") } := by
  simp [saveEdit, h]

/-- C3: a successful `saveEdit` patches, positionally in place, exactly the
cached rows whose `id` matches, overwriting exactly the two submitted
fields (the record update leaves the other seven fields of the row as they
were); rows with a different `id` are returned unchanged, and a failed
save leaves the cached rows untouched. -/
theorem saveEdit_success_patches_single_row (st : ListState) (id : Int)
    (h : jsTrim st.editMapped ≠ ("")) :
    (saveEdit st id true).state.items.length = st.items.length ∧
    (∀ (i : Nat) (r : MappingRow), st.items[i]? = some r →
      (r.id = id →
        (saveEdit st id true).state.items[i]? =
          some { r with mapped_field_name := jsTrim st.editMapped
                        human_verified := some st.editHuman }) ∧
      (r.id ≠ id → (saveEdit st id true).state.items[i]? = some r)) ∧
    (saveEdit st id false).state.items = st.items := by
  refine ⟨?_, ?_, ?_⟩
  · simp [saveEdit, h]
  · intro i r hr
    constructor
    · intro hid
      simp only [saveEdit, if_neg h, if_pos rfl]
      simp [List.getElem?_map, hr, hid]
    · intro hid
      simp only [saveEdit, if_neg h, if_pos rfl]
      simp [List.getElem?_map, hr, hid]
  · simp [saveEdit, h]

/-- C9: with a mapped-name input whose trim is non-empty and differs from
the raw text, `saveEdit` puts the trimmed string — not the raw input —
both into the `PATCH` body and into the patched cached row. -/
theorem saveEdit_uses_trimmed_name (st : ListState) (id : Int) (success : Bool)
    (h1 : jsTrim st.editMapped ≠ ("")) (h2 : st.editMapped ≠ jsTrim st.editMapped) :
    (saveEdit st id success).request =
      some { human_verified := st.editHuman
             mapped_field_name := jsTrim st.editMapped } ∧
    (∀ (i : Nat) (r : MappingRow), st.items[i]? = some r → r.id = id →
      ∃ r', (saveEdit st id true).state.items[i]? = some r' ∧
        r'.mapped_field_name = jsTrim st.editMapped ∧
        r'.mapped_field_name ≠ st.editMapped) := by
  constructor
  · cases success <;> simp [saveEdit, h1]
  · intro i r hr hid
    refine ⟨{ r with mapped_field_name := jsTrim st.editMapped
                     human_verified := some st.editHuman }, ?_, rfl, ?_⟩
    · simp only [saveEdit, if_neg h1, if_pos rfl]
      simp [List.getElem?_map, hr, hid]
    · simp only []
      exact fun he => h2 he.symm

theorem saveEdit_empty_name_blocks_witness :
    saveEdit (sampleState ("   ")) 1 true =
      { state := sampleState ("   "), request := none
        alertMsg := some ("Mapped Field cannot be empty.") } :=
  saveEdit_empty_name_blocks (sampleState ("   ")) 1 true (by decide)

theorem saveEdit_success_patches_single_row_witness :
    (saveEdit (sampleState (" source.address ")) 1 true).state.items.length =
      (sampleState (" source.address ")).items.length ∧
    (∀ (i : Nat) (r : MappingRow), (sampleState (" source.address ")).items[i]? = some r →
      (r.id = 1 →
        (saveEdit (sampleState (" source.address ")) 1 true).state.items[i]? =
          some { r with
            mapped_field_name := jsTrim (sampleState (" source.address ")).editMapped
            human_verified := some (sampleState (" source.address ")).editHuman }) ∧
      (r.id ≠ 1 →
        (saveEdit (sampleState (" source.address ")) 1 true).state.items[i]? =
          some r)) ∧
    (saveEdit (sampleState (" source.address ")) 1 false).state.items =
      (sampleState (" source.address ")).items :=
  saveEdit_success_patches_single_row (sampleState (" source.address ")) 1
    (by decide)

theorem saveEdit_uses_trimmed_name_witness :
    (saveEdit (sampleState (" source.address ")) 2 true).request =
      some { human_verified := (sampleState (" source.address ")).editHuman
             mapped_field_name :=
               jsTrim (sampleState (" source.address ")).editMapped } ∧
    (∀ (i : Nat) (r : MappingRow), (sampleState (" source.address ")).items[i]? = some r →
      r.id = 2 →
      ∃ r', (saveEdit (sampleState (" source.address ")) 2 true).state.items[i]?
          = some r' ∧
        r'.mapped_field_name = jsTrim (sampleState (" source.address ")).editMapped ∧
        r'.mapped_field_name ≠ (sampleState (" source.address ")).editMapped) :=
  saveEdit_uses_trimmed_name (sampleState (" source.address ")) 2 true
    (by decide) (by decide)

theorem replaceChar_single (c r : Char) (l : List Char) :
    replaceChar c [r] l = l.map (fun x => if x = c then r else x) := by
  induction l with
  | nil => rfl
  | cons x xs ih =>
    by_cases hx : x = c <;> simp [replaceChar, hx, ih]

theorem count_replaceChar_double (c : Char) (l : List Char) :
    (replaceChar c [c, c] l).count c = 2 * l.count c := by
  induction l with
  | nil => rfl
  | cons x xs ih =>
    by_cases hx : x = c
    · subst hx
      simp only [replaceChar, if_pos rfl, List.count_append, ih, List.count_cons]
      simp [List.count_nil]
      omega
    · simp only [replaceChar, if_neg hx, List.count_append, ih, List.count_cons]
      simp [hx]

theorem quoteCell_data (v : String) :
    (quoteCell v).data =
      ('"') :: replaceChar ('"') [('"'), ('"')] v.data ++ [('"')] := by
  simp [quoteCell, jsReplaceAll, String.data_append]

/-- C4: CSV export of the currently filtered, currently loaded rows yields
`K + 1` newline-joined lines — the fixed header plus one line per filtered
row, in order — where every cell is double-quoted with embedded double
quotes doubled (the quote count of a quoted cell is exactly twice the
cell's own plus the two delimiters), and the fifth column is the mapped
field name with every dot replaced by an underscore. -/
theorem exportCSV_lines_and_quoting (items : List MappingRow) (q : String) :
    (csvLines (filteredRows items q)).length = (filteredRows items q).length + 1 ∧
    exportCSV (filteredRows items q) =
      String.intercalate ("\n") (csvLines (filteredRows items q)) ∧
    (csvLines (filteredRows items q))[0]? = some (csvLineOf csvHeader) ∧
    (∀ i : Nat, (csvLines (filteredRows items q))[i + 1]? =
      ((filteredRows items q)[i]?).map (fun r => csvLineOf (rowCells r))) ∧
    (∀ r : MappingRow, (rowCells r).length = csvHeader.length) ∧
    (∀ r : MappingRow,
      (rowCells r)[4]? = some (jsReplaceAll r.mapped_field_name ('.') ("_"))) ∧
    (∀ s : String, (jsReplaceAll s ('.') ("_")).data =
      s.data.map (fun ch => if ch = ('.') then ('_') else ch)) ∧
    (∀ cols : List String,
      csvLineOf cols = String.intercalate (",") (cols.map quoteCell)) ∧
    (∀ v : String, (quoteCell v).data.head? = some ('"') ∧
      (quoteCell v).data.getLast? = some ('"') ∧
      (quoteCell v).data.count ('"') = 2 * v.data.count ('"') + 2) := by
  refine ⟨?_, rfl, ?_, ?_, ?_, ?_, ?_, fun cols => rfl, ?_⟩
  · simp [csvLines]
  · simp [csvLines]
  · intro i
    simp only [csvLines, List.map_cons, List.getElem?_cons_succ, List.getElem?_map,
      List.map_map]
    rfl
  · intro r
    simp [rowCells, csvHeader]
  · intro r
    simp [rowCells]
  · intro s
    simp [jsReplaceAll, replaceChar_single]
  · intro v
    refine ⟨?_, ?_, ?_⟩
    · rw [quoteCell_data]
      rfl
    · rw [quoteCell_data]
      exact List.getLast?_concat _
    · rw [quoteCell_data]
      simp only [List.count_cons, List.count_append, count_replaceChar_double]
      simp

theorem isContainer_of_isObjB (v : JValue) (h : v.isObjB = true) :
    v.isContainer = true := by
  cases v <;> simp_all [JValue.isObjB, JValue.isContainer]

theorem mem_collectFields_aux (docs : List JValue) :
    ∀ (acc : List String) (p : String),
      p ∈ docs.foldl (fun fields ev => extractFieldPaths ev ("") 0 2 fields) acc ↔
        p ∈ acc ∨ ∃ ev ∈ docs, p ∈ extractFieldPaths ev ("") 0 2 [] := by
  induction docs with
  | nil => intro acc p; simp
  | cons d docs ih =>
    intro acc p
    have h1 := mem_extractFieldPaths d ("") 0 2 acc p
    have h2 := mem_extractFieldPaths d ("") 0 2 [] p
    simp only [List.not_mem_nil, false_or] at h2
    rw [List.foldl_cons, ih, h1, ← h2]
    simp only [List.mem_cons]
    constructor
    · rintro ((hp | hp) | ⟨ev, hev, hp⟩)
      · exact Or.inl hp
      · exact Or.inr ⟨d, Or.inl rfl, hp⟩
      · exact Or.inr ⟨ev, Or.inr hev, hp⟩
    · rintro (hp | ⟨ev, rfl | hev, hp⟩)
      · exact Or.inl (Or.inl hp)
      · exact Or.inl (Or.inr hp)
      · exact Or.inr ⟨ev, hev, hp⟩

theorem mem_collectFields (docs : List JValue) (p : String) :
    p ∈ collectFields docs ↔ ∃ ev ∈ docs, p ∈ extractFieldPaths ev ("") 0 2 [] := by
  rw [collectFields, mem_collectFields_aux]
  simp

/-- C2, counterexample to the claim as stated: on the batch
`[\x7b"a":1\x7d,\x7b"toString":5\x7d]` the item for field `toString` is
described by rendering the inherited `Object.prototype.toString` function,
although the first document has no own member at that path — so the
description is neither a scalar sampled from the first document nor the
generic `field toString` fallback the claim mandates for a lacking path. -/
theorem buildBatchPayload_proto_member_counterexample :
    ∃ payload,
      (buildBatchPayload ("[\x7b\"a\": 1\x7d, \x7b\"toString\": 5\x7d]")
          (.ok (.vArr cexDocs)) ("pan_traffic") false).payload = some payload ∧
      ∃ it ∈ payload, it.field = ("toString") ∧
        List.lookup ("toString") [(("a"), JValue.vNum ("1"))] = none ∧
        it.description =
          ("sample value: function toString() \x7b [native code] \x7d") ∧
        it.description ≠ ("field ") ++ it.field := by
  have hcf : collectFields cexDocs = [("a"), ("toString")] := by
    simp [collectFields, cexDocs, extractFieldPaths, extractLoop,
      JValue.childEntries, JValue.isContainer, setAdd, prefixJoin]
  have hb : buildBatchPayload ("[\x7b\"a\": 1\x7d, \x7b\"toString\": 5\x7d]")
      (.ok (.vArr cexDocs)) ("pan_traffic") false =
      { payload := some
          [{ sourcetype := ("pan_traffic"), field := ("a")
             description := ("sample value: 1") },
           { sourcetype := ("pan_traffic"), field := ("toString")
             description :=
               ("sample value: function toString() \x7b [native code] \x7d") }]
        errorMsg := none } := by
    have hdo : docsOf (.vArr cexDocs) = cexDocs := rfl
    simp only [buildBatchPayload,
      if_neg (show ¬ jsTrim ("[\x7b\"a\": 1\x7d, \x7b\"toString\": 5\x7d]") = ("")
        from by decide), hdo, hcf]
    decide
  rw [hb]
  refine ⟨_, rfl, ?_⟩
  refine ⟨{ sourcetype := ("pan_traffic"), field := ("toString")
            description :=
              ("sample value: function toString() \x7b [native code] \x7d") },
    by simp, rfl, rfl, rfl, by decide⟩

/-- C2, as amended: when the input parses to a non-empty array of objects,
`buildBatchPayload` returns a payload whose field set is exactly the union
of the depth-2 extraction over all documents, and every item carries the
configured sourcetype and a description sampled from the first document
only, through the JS member lookup: a rendering of the member found there
when it is a non-null non-object value — the own scalar at that path, or
an inherited native prototype member such as `toString` — and the generic
fallback naming the field exactly when the lookup finds nothing, null, an
own container, or a prototype object; the field itself is never omitted. -/
theorem buildBatchPayload_union_and_member_lookup_description
    (text sourcetype : String) (xs : List JValue) (silent : Bool)
    (htext : jsTrim text ≠ ("")) (hne : xs ≠ [])
    (hobjs : ∀ x ∈ xs, x.isObjB = true) :
    ∃ payload,
      (buildBatchPayload text (.ok (.vArr xs)) sourcetype silent).payload =
        some payload ∧
      (∀ p : String, (∃ it ∈ payload, it.field = p) ↔
        ∃ ev ∈ xs, p ∈ extractFieldPaths ev ("") 0 2 []) ∧
      (∀ it ∈ payload, it.sourcetype = sourcetype ∧
        ((∃ v : JValue, getByPath (xs.headD (.vObj [])) it.field = some (.val v) ∧
            v.isContainer = false ∧ v ≠ JValue.vNull ∧
            it.description = ("sample value: ") ++ jsString v) ∨
          (∃ r : String,
            getByPath (xs.headD (.vObj [])) it.field = some (.native r) ∧
            it.description = ("sample value: ") ++ r) ∨
          ((getByPath (xs.headD (.vObj [])) it.field = none ∨
              getByPath (xs.headD (.vObj [])) it.field = some (.val JValue.vNull) ∨
              (∃ v, getByPath (xs.headD (.vObj [])) it.field = some (.val v) ∧
                v.isContainer = true) ∨
              (∃ pr, getByPath (xs.headD (.vObj [])) it.field =
                some (.proto pr))) ∧
            it.description = ("field ") ++ it.field))) := by
  have hdocs : docsOf (.vArr xs) = xs := by
    simp only [docsOf]
    rw [List.filter_eq_self]
    intro x hx
    exact isContainer_of_isObjB x (hobjs x hx)
  have hemp : xs.isEmpty = false := by
    cases xs with
    | nil => exact absurd rfl hne
    | cons a as => rfl
  refine ⟨(collectFields xs).map
      (fun f => { sourcetype := sourcetype, field := f
                  description := mkDescription (xs.headD (.vObj [])) f }), ?_, ?_, ?_⟩
  · simp only [buildBatchPayload, if_neg htext, hdocs, hemp, Bool.false_eq_true,
      if_false]
  · intro p
    constructor
    · rintro ⟨it, hit, rfl⟩
      obtain ⟨f, hf, rfl⟩ := List.mem_map.mp hit
      exact (mem_collectFields xs f).mp hf
    · intro hp
      have hf := (mem_collectFields xs p).mpr hp
      exact ⟨_, List.mem_map.mpr ⟨p, hf, rfl⟩, rfl⟩
  · intro it hit
    obtain ⟨f, hf, rfl⟩ := List.mem_map.mp hit
    refine ⟨rfl, ?_⟩
    simp only [mkDescription]
    rcases hgb : getByPath (xs.headD (.vObj [])) f with _ | m
    · exact Or.inr (Or.inr ⟨Or.inl rfl, rfl⟩)
    · cases m with
      | native r => exact Or.inr (Or.inl ⟨r, rfl, rfl⟩)
      | proto pr =>
        exact Or.inr (Or.inr ⟨Or.inr (Or.inr (Or.inr ⟨pr, rfl⟩)), rfl⟩)
      | val v =>
        cases v with
        | vNull => exact Or.inr (Or.inr ⟨Or.inr (Or.inl rfl), rfl⟩)
        | vArr es =>
          exact Or.inr (Or.inr ⟨Or.inr (Or.inr (Or.inl ⟨.vArr es, rfl, rfl⟩)), rfl⟩)
        | vObj fs2 =>
          exact Or.inr (Or.inr ⟨Or.inr (Or.inr (Or.inl ⟨.vObj fs2, rfl, rfl⟩)), rfl⟩)
        | vBool b =>
          exact Or.inl ⟨.vBool b, rfl, rfl, fun h => JValue.noConfusion h, rfl⟩
        | vNum r =>
          exact Or.inl ⟨.vNum r, rfl, rfl, fun h => JValue.noConfusion h, rfl⟩
        | vStr s =>
          exact Or.inl ⟨.vStr s, rfl, rfl, fun h => JValue.noConfusion h, rfl⟩

theorem buildBatchPayload_union_and_member_lookup_description_witness :
    ∃ payload,
      (buildBatchPayload ("[\x7b\"a\": 1\x7d, \x7b\"b\": \"x\"\x7d]")
          (.ok (.vArr sampleDocs)) ("pan_traffic") false).payload =
        some payload ∧
      (∀ p : String, (∃ it ∈ payload, it.field = p) ↔
        ∃ ev ∈ sampleDocs, p ∈ extractFieldPaths ev ("") 0 2 []) ∧
      (∀ it ∈ payload, it.sourcetype = ("pan_traffic") ∧
        ((∃ v : JValue,
            getByPath (sampleDocs.headD (.vObj [])) it.field = some (.val v) ∧
            v.isContainer = false ∧ v ≠ JValue.vNull ∧
            it.description = ("sample value: ") ++ jsString v) ∨
          (∃ r : String,
            getByPath (sampleDocs.headD (.vObj [])) it.field = some (.native r) ∧
            it.description = ("sample value: ") ++ r) ∨
          ((getByPath (sampleDocs.headD (.vObj [])) it.field = none ∨
              getByPath (sampleDocs.headD (.vObj [])) it.field =
                some (.val JValue.vNull) ∨
              (∃ v, getByPath (sampleDocs.headD (.vObj [])) it.field =
                some (.val v) ∧ v.isContainer = true) ∨
              (∃ pr, getByPath (sampleDocs.headD (.vObj [])) it.field =
                some (.proto pr))) ∧
            it.description = ("field ") ++ it.field))) :=
  buildBatchPayload_union_and_member_lookup_description
    ("[\x7b\"a\": 1\x7d, \x7b\"b\": \"x\"\x7d]") ("pan_traffic") sampleDocs false
    (by decide) (List.cons_ne_nil _ _) (by decide)

theorem mem_enumIdx_toString (xs : List JValue) :
    ∀ (j i : Nat), i < xs.length → ∃ v, (toString (j + i), v) ∈ enumIdx j xs := by
  induction xs with
  | nil => intro j i hi; simp at hi
  | cons x xs ih =>
    intro j i hi
    cases i with
    | zero => exact ⟨x, by simp [enumIdx]⟩
    | succ n =>
      obtain ⟨v, hv⟩ := ih (j + 1) n (by simpa using hi)
      refine ⟨v, ?_⟩
      simp only [enumIdx, List.mem_cons]
      right
      have harith : j + (n + 1) = (j + 1) + n := by omega
      rw [harith]
      exact hv

theorem head_path_mem (l : List (String × JValue)) (k : String) (v : JValue)
    (h : (k, v) ∈ l) : [k] ∈ pathsOfEntries l := by
  induction l with
  | nil => cases h
  | cons e rest ih =>
    obtain ⟨k', v'⟩ := e
    rw [mem_pathsOfEntries_cons]
    rcases List.mem_cons.mp h with heq | hmem
    · injection heq with h1 h2
      subst h1
      exact Or.inl rfl
    · exact Or.inr (Or.inr (ih hmem))

theorem cons_path_mem (l : List (String × JValue)) (k : String) (v : JValue)
    (ks' : List String) (h : (k, v) ∈ l) (h' : ks' ∈ pathsOf v) :
    k :: ks' ∈ pathsOfEntries l := by
  induction l with
  | nil => cases h
  | cons e rest ih =>
    obtain ⟨k', v'⟩ := e
    rw [mem_pathsOfEntries_cons]
    rcases List.mem_cons.mp h with heq | hmem
    · injection heq with h1 h2
      subst h1
      subst h2
      exact Or.inr (Or.inl ⟨ks', h', rfl⟩)
    · exact Or.inr (Or.inr (ih hmem))

theorem pathsOf_vObj (fs : List (String × JValue)) :
    pathsOf (.vObj fs) = pathsOfEntries fs := by
  rw [pathsOf]
  rfl

theorem pathsOf_vArr (xs : List JValue) :
    pathsOf (.vArr xs) = pathsOfEntries (enumIdx 0 xs) := by
  rw [pathsOf]
  rfl

/-- C10: the pipeline treats a JSON array as a container keyed by its
decimal indices.  The batch-entry filter keeps arrays and objects and
drops exactly null and the non-object scalars; an array sitting at key `k`
of an extracted object contributes both its own path and, within the depth
bound, an index subpath for every element; and a top-level array document
contributes its index paths directly. -/
theorem arrays_treated_as_containers
    (xs elems : List JValue) (fs : List (String × JValue))
    (k pre : String) (depth maxDepth i : Nat) (out : List String)
    (hmem : (k, JValue.vArr elems) ∈ fs)
    (hd : depth + 1 ≤ maxDepth) (hi : i < elems.length) :
    docsOf (.vArr xs) = xs.filter (fun x => x.isContainer) ∧
    (JValue.vArr elems).isContainer = true ∧
    JValue.vNull.isContainer = false ∧
    (∀ b, (JValue.vBool b).isContainer = false) ∧
    (∀ s, (JValue.vNum s).isContainer = false) ∧
    (∀ s, (JValue.vStr s).isContainer = false) ∧
    prefixJoin pre k ∈ extractFieldPaths (.vObj fs) pre depth maxDepth out ∧
    prefixJoin (prefixJoin pre k) (toString i) ∈
      extractFieldPaths (.vObj fs) pre depth maxDepth out ∧
    toString i ∈ extractFieldPaths (.vArr elems) ("") 0 maxDepth out := by
  have hidx : [toString i] ∈ pathsOf (.vArr elems) := by
    rw [pathsOf_vArr]
    obtain ⟨v, hv⟩ := mem_enumIdx_toString elems 0 i hi
    rw [Nat.zero_add] at hv
    exact head_path_mem _ _ _ hv
  refine ⟨rfl, rfl, rfl, fun b => rfl, fun s => rfl, fun s => rfl, ?_, ?_, ?_⟩
  · rw [mem_extractFieldPaths]
    refine Or.inr ⟨by omega, [k], ?_, by simp, ?_⟩
    · rw [pathsOf_vObj]
      exact head_path_mem fs k _ hmem
    · rw [joinAll_cons, joinAll_nil]
  · rw [mem_extractFieldPaths]
    refine Or.inr ⟨by omega, [k, toString i], ?_, by simp; omega, ?_⟩
    · rw [pathsOf_vObj]
      exact cons_path_mem fs k _ [toString i] hmem hidx
    · rw [joinAll_cons, joinAll_cons, joinAll_nil]
  · rw [mem_extractFieldPaths]
    refine Or.inr ⟨by omega, [toString i], hidx, by simp, ?_⟩
    rw [joinAll_cons, joinAll_nil]
    simp [prefixJoin]

theorem arrays_treated_as_containers_witness :
    docsOf (.vArr [JValue.vArr []]) =
      [JValue.vArr []].filter (fun x => x.isContainer) ∧
    (JValue.vArr [JValue.vStr ("a"), JValue.vStr ("b")]).isContainer = true ∧
    JValue.vNull.isContainer = false ∧
    (∀ b, (JValue.vBool b).isContainer = false) ∧
    (∀ s, (JValue.vNum s).isContainer = false) ∧
    (∀ s, (JValue.vStr s).isContainer = false) ∧
    prefixJoin ("") ("tags") ∈
      extractFieldPaths
        (.vObj [(("tags"), JValue.vArr [JValue.vStr ("a"), JValue.vStr ("b")])])
        ("") 0 2 [] ∧
    prefixJoin (prefixJoin ("") ("tags")) (toString 0) ∈
      extractFieldPaths
        (.vObj [(("tags"), JValue.vArr [JValue.vStr ("a"), JValue.vStr ("b")])])
        ("") 0 2 [] ∧
    toString 0 ∈
      extractFieldPaths (.vArr [JValue.vStr ("a"), JValue.vStr ("b")]) ("") 0 2 [] :=
  arrays_treated_as_containers [JValue.vArr []]
    [JValue.vStr ("a"), JValue.vStr ("b")]
    [(("tags"), JValue.vArr [JValue.vStr ("a"), JValue.vStr ("b")])]
    ("tags") ("") 0 2 0 [] (List.mem_singleton.mpr rfl) (by omega) (by decide)
